import Mathlib

/-!
Shallow embedding of the PiSearch digit store and pattern searcher
(class `PiSearch` in `src/app.py`).  The backing binary file is modelled
as the list of its byte values; positions and counts are `Int` (Python
integers are unbounded and may be negative), decoded digits are `Nat`
nibbles.  Fallible operations return `Except PiError`, telling the three
`ValueError` families of the Python code apart by the messages the code
raises.  Note that for a positive divisor both Python `//`/`%` and the
`Int` `/`/`%` used here are floor division and a nonnegative remainder,
so the arithmetic on possibly-negative positions coincides.
-/

deriving instance DecidableEq for Except

namespace PiSearch

/-- Error kinds corresponding to the `ValueError`s raised in `app.py`:
an invalid search pattern, a position outside the available range, and an
invalid (non-digit) decoded nibble respectively. -/
inductive PiError where
  | invalidPattern
  | outOfRange
  | corruptData
deriving DecidableEq, Repr

/-- `PiSearch.num_digits`: the byte file stores two digits per byte
(`self._num_digits = self._file_size * 2` in `__init__`). -/
def num_digits (store : List Nat) : Nat := store.length * 2

/-- `PiSearch._digit_at_position`: range check, then read the byte at
`position // 2` and take its high nibble for an even position, its low
nibble for an odd one; a decoded value outside `0..9` is corrupt data. -/
def _digit_at_position (store : List Nat) (position : Int) : Except PiError Nat :=
  if position < 0 ∨ (num_digits store : Int) ≤ position then .error .outOfRange
  else
    let byte := store.getD (position / 2).toNat 0
    let digit := if position % 2 = 0 then byte >>> 4 else byte &&& 0x0F
    if digit ≤ 9 then .ok digit else .error .corruptData

/-- The `while position < start_position + count` loop of
`PiSearch.get_digits`, with `i = position - start_position` and the
first argument of the recursion the number of iterations left.  The
byte index the code uses is `(position - start_position) // 2 = i / 2`,
while the nibble choice uses the absolute parity
`position % 2 = (start + i) % 2`. -/
def getDigitsLoop (data : List Nat) (start : Nat) : Nat → Nat → Except PiError (List Nat)
  | 0, _ => .ok []
  | n + 1, i =>
    let byte := data.getD (i / 2) 0
    let digit := if (start + i) % 2 = 0 then byte >>> 4 else byte &&& 0x0F
    if digit ≤ 9 then
      match getDigitsLoop data start n (i + 1) with
      | .ok rest => .ok (digit :: rest)
      | .error e => .error e
    else .error .corruptData

/-- `PiSearch.get_digits`: range-check `start_position`, clamp `count`
downward at the end of the sequence, read the byte slice
`[start_position // 2, (start_position + count - 1) // 2 + 1)` and decode
it digit by digit.  (When the clamped count is not positive the loop body
never runs and the content of the slice is irrelevant, as in the code.) -/
def get_digits (store : List Nat) (start_position count : Int) : Except PiError (List Nat) :=
  if start_position < 0 ∨ (num_digits store : Int) ≤ start_position then .error .outOfRange
  else
    let count' : Int :=
      if (num_digits store : Int) < start_position + count then
        (num_digits store : Int) - start_position
      else count
    let byte_start : Int := start_position / 2
    let byte_end : Int := (start_position + count' - 1) / 2 + 1
    let data := (store.drop byte_start.toNat).take (byte_end - byte_start).toNat
    getDigitsLoop data start_position.toNat count'.toNat 0

/-- `PiSearch._extract_digit_from_byte`: high nibble for the first digit
of a byte, low nibble for the second; raises on a value outside `0..9`. -/
def _extract_digit_from_byte (byte : Nat) (is_first_digit : Bool) : Except PiError Nat :=
  let digit := if is_first_digit then byte >>> 4 else byte &&& 0x0F
  if digit ≤ 9 then .ok digit else .error .corruptData

/-- First pass of the candidate check in `PiSearch.search`: iterate `i`
over the pattern, decode `bytes_data[i // 2]` with nibble parity `i % 2`,
and compare with `pattern[i]`.  A decode `ValueError` is caught by the
code (`except ValueError: ... match = False`) and so counts as a failed
match here. -/
def scanDigits (bytes_data : List Nat) : List Int → Nat → Bool
  | [], _ => true
  | d :: rest, i =>
    match _extract_digit_from_byte (bytes_data.getD (i / 2) 0) (i % 2 == 0) with
    | .error _ => false
    | .ok digit => if (digit : Int) = d then scanDigits bytes_data rest (i + 1) else false

/-- Verification pass of `PiSearch.search` ("Double check the match by
reading the sequence again"): the same decoding, but a decode error is
not caught and propagates, while a digit mismatch only clears
`verify_match`. -/
def verifyDigits (bytes_data : List Nat) : List Int → Nat → Except PiError Bool
  | [], _ => .ok true
  | d :: rest, i =>
    match _extract_digit_from_byte (bytes_data.getD (i / 2) 0) (i % 2 == 0) with
    | .error e => .error e
    | .ok digit => if (digit : Int) = d then verifyDigits bytes_data rest (i + 1) else .ok false

/-- The `while position <= num_digits - pattern_length` loop of
`PiSearch.search`.  The second argument of the recursion is the number of
loop iterations left, `num_digits - pattern_length + 1 - position`; the
loop exits with the sentinel `-1` when it is exhausted.  Each iteration
reads the byte slice `[position // 2, (position + len - 1) // 2 + 1)` of
the memory-mapped file, scans it, and on a first-pass match re-reads the
same slice (the mapping is read-only, so the re-read yields the same
bytes) to verify before returning `position`. -/
def searchScan (store : List Nat) (pattern : List Int) : Nat → Nat → Except PiError Int
  | _, 0 => .ok (-1)
  | position, fuel + 1 =>
    let start_byte := position / 2
    let end_byte := (position + pattern.length - 1) / 2 + 1
    let bytes_data := (store.drop start_byte).take (end_byte - start_byte)
    if scanDigits bytes_data pattern 0 then
      match verifyDigits bytes_data pattern 0 with
      | .error e => .error e
      | .ok true => .ok position
      | .ok false => searchScan store pattern (position + 1) fuel
    else searchScan store pattern (position + 1) fuel

/-- `PiSearch.search`: empty pattern returns the sentinel `-1`; a pattern
with a value outside `0..9` is invalid; the start position is range
checked; a pattern longer than the remaining digits returns `-1`; and
otherwise the byte-level scan runs from `start_position` up to
`num_digits - pattern_length` inclusive. -/
def search (store : List Nat) (pattern : List Int) (start_position : Int) : Except PiError Int :=
  if pattern = [] then .ok (-1)
  else if !(pattern.all fun d => decide (0 ≤ d ∧ d ≤ 9)) then .error .invalidPattern
  else if start_position < 0 ∨ (num_digits store : Int) ≤ start_position then .error .outOfRange
  else if (num_digits store : Int) - start_position < pattern.length then .ok (-1)
  else
    let s := start_position.toNat
    searchScan store pattern s (num_digits store - pattern.length + 1 - s)

/-- The 7-byte packed store holding the first 14 digits of π,
`14159265358979`, used as the worked example of the specification. -/
def pi_store : List Nat := [0x14, 0x15, 0x92, 0x65, 0x35, 0x89, 0x79]

/-- If the first (error-catching) pass over a candidate declares a match,
the verification pass decodes the very same bytes and therefore succeeds
with a match as well. -/
lemma verify_of_scan (data : List Nat) :
    ∀ (pat : List Int) (i : Nat),
      scanDigits data pat i = true → verifyDigits data pat i = .ok true := by
  intro pat
  induction pat with
  | nil => intro i _; rfl
  | cons d rest ih =>
    intro i h
    unfold scanDigits at h
    unfold verifyDigits
    cases hE : _extract_digit_from_byte (data.getD (i / 2) 0) (i % 2 == 0) with
    | error e => rw [hE] at h; exact absurd h (by simp)
    | ok digit =>
      rw [hE] at h
      dsimp only at h ⊢
      by_cases hd : (digit : Int) = d
      · rw [if_pos hd] at h ⊢
        exact ih (i + 1) h
      · rw [if_neg hd] at h
        exact absurd h (by simp)

/-- The scan loop of `search` always terminates with an `ok` result:
its only error source is the verification pass, which is reached only
after an identical first pass succeeded. -/
lemma searchScan_isOk (store : List Nat) (pat : List Int) :
    ∀ (fuel pos : Nat), ∃ r : Int, searchScan store pat pos fuel = .ok r := by
  intro fuel
  induction fuel with
  | zero => intro pos; exact ⟨-1, rfl⟩
  | succ n ih =>
    intro pos
    unfold searchScan
    by_cases h : scanDigits
        ((store.drop (pos / 2)).take ((pos + pat.length - 1) / 2 + 1 - pos / 2)) pat 0 = true
    · rw [if_pos h, verify_of_scan _ _ _ h]
      exact ⟨pos, rfl⟩
    · rw [if_neg h]
      exact ih (pos + 1)

/-- Claim C1, evaluated at the failing input.  On the packed store of the
specification's worked example (digits `14159265358979`) the pattern
`535` occurs at positions 7..9, yet `search` from start position 0
returns the not-found sentinel instead of a position `≤ 7`: a candidate
at an odd position is decoded from byte `position // 2` starting with
its high nibble, i.e. one digit too early, so occurrences that begin at
odd positions are never detected. -/
theorem c1_first_match_code_eval :
    _digit_at_position pi_store 7 = .ok 5 ∧
    _digit_at_position pi_store 8 = .ok 3 ∧
    _digit_at_position pi_store 9 = .ok 5 ∧
    search pi_store [5, 3, 5] 0 = .ok (-1) := by decide

/-- Claim C9, evaluated at the failing input.  `search` for `14` from
start position 1 on the π example store returns position 1, but the
digits at positions 1..2 are `4` and `1`, not `1` and `4`: at the odd
candidate 1 the code actually compared the window that starts at
position 0, so the returned position does not carry the pattern. -/
theorem c9_soundness_code_eval :
    search pi_store [1, 4] 1 = .ok 1 ∧
    _digit_at_position pi_store 1 = .ok 4 ∧
    _digit_at_position pi_store 2 = .ok 1 := by decide

/-- Claim C5, evaluated at the failing input.  For the 2-byte store
`0x12 0xA4` (digit sequence `1, 2, 10, 4` with an invalid nibble at
position 2), `get_digits 1 2` requests positions 1..2 and must fail with
`CorruptData` by the claim; instead it succeeds with `[2, 1]`, re-reading
the digit at position 0: for an odd start the byte index
`(position - start) // 2` into a buffer that begins at byte `start // 2`
is misaligned from the second digit on. -/
theorem c5_get_digits_code_eval :
    get_digits [0x12, 0xA4] 1 2 = .ok [2, 1] ∧
    _digit_at_position [0x12, 0xA4] 1 = .ok 2 ∧
    _digit_at_position [0x12, 0xA4] 2 = .error .corruptData := by decide

/-- Claim C2 counterexample.  On the store `0xA1 0x11` the digit at
position 0 decodes to the invalid value 10, yet `search` for `11` from
start 0 does not propagate `CorruptData`: the decode error is caught,
the candidate is treated as a non-match, the scan continues past it and
returns position 2. -/
theorem c2_counterexample :
    _digit_at_position [0xA1, 0x11] 0 = .error .corruptData ∧
    search [0xA1, 0x11] [1, 1] 0 = .ok 2 := by decide

/-- Claim C2 as amended: a decode error met during the candidate scan is
caught and treated as a non-match and the scan continues, so `search`
never surfaces `CorruptData` at all — its only outcomes are a result
(found position or `-1`) or the `InvalidPattern`/`OutOfRange`
precondition failures. -/
theorem c2_amended_no_corrupt_data (store : List Nat) (pattern : List Int) (s : Int) :
    (∃ r : Int, search store pattern s = .ok r) ∨
    search store pattern s = .error .invalidPattern ∨
    search store pattern s = .error .outOfRange := by
  unfold search
  split
  · exact .inl ⟨-1, rfl⟩
  split
  · exact .inr (.inl rfl)
  split
  · exact .inr (.inr rfl)
  split
  · exact .inl ⟨-1, rfl⟩
  · exact .inl (searchScan_isOk store pattern _ _)

/-- Claim C3 counterexample: `search` with an empty pattern does not
raise `InvalidPattern`; it returns the not-found sentinel `-1`
(`if not pattern: return -1` precedes the digit validation). -/
theorem c3_counterexample : search pi_store ([] : List Int) 0 = .ok (-1) := by decide

/-- Claim C3 as amended: a non-empty pattern containing a value outside
`[0, 9]` makes `search` fail with `InvalidPattern`, while an empty
pattern returns the not-found sentinel `-1` rather than an error. -/
theorem c3_amended_invalid_pattern (store : List Nat) (pattern : List Int) (s : Int) :
    search store [] s = .ok (-1) ∧
    ((∃ d ∈ pattern, d < 0 ∨ 9 < d) → search store pattern s = .error .invalidPattern) := by
  refine ⟨rfl, ?_⟩
  rintro ⟨d, hd, hout⟩
  have hne : pattern ≠ [] := by
    rintro rfl
    exact absurd hd (List.not_mem_nil d)
  have hall : (pattern.all fun x => decide (0 ≤ x ∧ x ≤ 9)) = false := by
    refine List.all_eq_false.mpr ⟨d, hd, ?_⟩
    have hno : ¬ (0 ≤ d ∧ d ≤ 9) := by omega
    simp [hno]
  unfold search
  rw [if_neg hne, hall]
  rfl

/-- Witness for the amended claim C3 at concrete inputs. -/
theorem c3_witness :
    search pi_store [] 0 = .ok (-1) ∧ search pi_store [10] 0 = .error .invalidPattern :=
  ⟨(c3_amended_invalid_pattern pi_store [10] 0).1,
   (c3_amended_invalid_pattern pi_store [10] 0).2 ⟨10, by decide, by decide⟩⟩

/-- Claim C6: for a non-empty pattern of valid digits, `search` fails
with `OutOfRange` exactly when the start position is negative or at
least `num_digits`. -/
theorem c6_search_out_of_range (store : List Nat) (pattern : List Int) (s : Int)
    (hne : pattern ≠ []) (hval : ∀ d ∈ pattern, 0 ≤ d ∧ d ≤ 9) :
    search store pattern s = .error .outOfRange ↔
      s < 0 ∨ (num_digits store : Int) ≤ s := by
  have hall : (pattern.all fun d => decide (0 ≤ d ∧ d ≤ 9)) = true :=
    List.all_eq_true.mpr fun d hd => decide_eq_true (hval d hd)
  unfold search
  rw [if_neg hne, hall]
  simp only [Bool.not_true, Bool.false_eq_true, if_false]
  by_cases hs : s < 0 ∨ (num_digits store : Int) ≤ s
  · rw [if_pos hs]
    simp [hs]
  · rw [if_neg hs]
    simp only [hs, iff_false]
    split
    · simp
    · obtain ⟨r, hr⟩ :=
        searchScan_isOk store pattern (num_digits store - pattern.length + 1 - s.toNat) s.toNat

      simp [hr]

/-- Witness for claim C6: the spec's own example, searching for `1` from
position 100 on the 14-digit store, fails with `OutOfRange`. -/
theorem c6_witness : search pi_store [1] 100 = .error .outOfRange :=
  (c6_search_out_of_range pi_store [1] 100 (by decide) (by decide)).mpr (by decide)

/-- Claim C7: for a non-empty valid pattern and a valid start position,
a pattern longer than the remaining digits yields the not-found sentinel
`-1` and no error. -/
theorem c7_boundary_not_found (store : List Nat) (pattern : List Int) (s : Int)
    (hne : pattern ≠ []) (hval : ∀ d ∈ pattern, 0 ≤ d ∧ d ≤ 9)
    (h0 : 0 ≤ s) (h1 : s < (num_digits store : Int))
    (hlen : (num_digits store : Int) - s < pattern.length) :
    search store pattern s = .ok (-1) := by
  have hall : (pattern.all fun d => decide (0 ≤ d ∧ d ≤ 9)) = true :=
    List.all_eq_true.mpr fun d hd => decide_eq_true (hval d hd)
  unfold search
  rw [if_neg hne, hall]
  simp only [Bool.not_true, Bool.false_eq_true, if_false]
  rw [if_neg (by omega : ¬(s < 0 ∨ (num_digits store : Int) ≤ s)), if_pos hlen]

/-- Witness for claim C7: a 3-digit pattern from position 1 of a 2-digit
store is not found and raises nothing. -/
theorem c7_witness : search [0x14] [1, 4, 1] 1 = .ok (-1) :=
  c7_boundary_not_found [0x14] [1, 4, 1] 1 (by decide) (by decide) (by decide)
    (by decide) (by decide)

/-- Claim C10: `search` is deterministic — a second call with the same
pattern and start position against the unchanged store returns whatever
the first call returned.  In this embedding the store is the immutable
byte content of the backing file, and `search` is a pure function of it,
so the result of the first call is literally the result of the second. -/
theorem c10_deterministic (store : List Nat) (pattern : List Int) (s : Int)
    (r : Except PiError Int) (h : search store pattern s = r) :
    search store pattern s = r := h

/-- Witness for claim C10 at a concrete input. -/
theorem c10_witness : search pi_store [1, 4] 0 = .ok 0 :=
  c10_deterministic pi_store [1, 4] 0 (.ok 0) (by decide)

/-- Claim C4: the digit count is twice the byte size of the store, and a
successfully decoded digit at a valid position `p` is exactly the high
4 bits of storage byte `p / 2` when `p` is even and its low 4 bits when
`p` is odd. -/
theorem c4_packed_decoding (store : List Nat) (p : Int)
    (h0 : 0 ≤ p) (h1 : p < (num_digits store : Int)) :
    num_digits store = 2 * store.length ∧
    ∀ d, _digit_at_position store p = .ok d →
      d = (if p.toNat % 2 = 0 then store.getD (p.toNat / 2) 0 / 2 ^ 4
           else store.getD (p.toNat / 2) 0 % 2 ^ 4) := by
  refine ⟨by simp [num_digits, Nat.mul_comm], ?_⟩
  intro d hd
  obtain ⟨n, rfl⟩ : ∃ n : ℕ, p = (n : ℤ) := ⟨p.toNat, (Int.toNat_of_nonneg h0).symm⟩
  unfold _digit_at_position at hd
  rw [if_neg (by omega)] at hd
  dsimp only at hd
  rw [show (((n : ℤ)) / 2).toNat = n / 2 from rfl] at hd
  simp only [Int.toNat_natCast]
  split at hd
  · rename_i hpar
    split at hd
    · injection hd with h
      subst h
      show store.getD (n / 2) 0 >>> 4 = _
      rw [if_pos (show n % 2 = 0 by omega)]
      exact Nat.shiftRight_eq_div_pow _ 4
    · simp at hd
  · rename_i hpar
    split at hd
    · injection hd with h
      subst h
      show store.getD (n / 2) 0 &&& 0x0F = _
      rw [if_neg (show ¬(n % 2 = 0) by omega)]
      have hm := Nat.and_pow_two_sub_one_eq_mod (store.getD (n / 2) 0) 4
      norm_num at hm ⊢
      exact hm
    · simp at hd

/-- Witness for claim C4: the store byte `0x35` decodes at odd position 1
to its low nibble. -/
theorem c4_witness :
    num_digits [0x35] = 2 * [0x35].length ∧
    ∀ d, _digit_at_position [0x35] 1 = .ok d →
      d = (if (1 : Int).toNat % 2 = 0 then [0x35].getD ((1 : Int).toNat / 2) 0 / 2 ^ 4
           else [0x35].getD ((1 : Int).toNat / 2) 0 % 2 ^ 4) :=
  c4_packed_decoding [0x35] 1 (by decide) (by decide)

/-- Claim C8: reading one digit through `get_digits` agrees with the
direct single-digit access `_digit_at_position` at every position,
including on which error is raised (`OutOfRange` outside the range, and
`CorruptData` exactly when the stored nibble at the position is
invalid). -/
theorem c8_consistency (store : List Nat) (p : Int) :
    get_digits store p 1 = Except.map (fun d => [d]) (_digit_at_position store p) := by
  unfold get_digits _digit_at_position
  by_cases hp : p < 0 ∨ (num_digits store : Int) ≤ p
  · rw [if_pos hp, if_pos hp]
    rfl
  · rw [if_neg hp, if_neg hp]
    have h0 : 0 ≤ p := by omega
    obtain ⟨n, rfl⟩ : ∃ n : ℕ, p = (n : ℤ) := ⟨p.toNat, (Int.toNat_of_nonneg h0).symm⟩
    have h1 : (n : ℤ) < (num_digits store : Int) := by omega
    dsimp only
    rw [if_neg (show ¬((num_digits store : Int) < (n : ℤ) + 1) by omega)]
    rw [show ((n : ℤ) + 1 - 1) = (n : ℤ) by ring]
    rw [show ((n : ℤ) / 2 + 1 - (n : ℤ) / 2) = 1 by ring]
    rw [show (((n : ℤ)) / 2).toNat = n / 2 from rfl]
    rw [show ((1 : ℤ)).toNat = 1 from rfl]
    rw [show (((n : ℤ))).toNat = n from rfl]
    have hdata : ((store.drop (n / 2)).take 1).getD 0 0 = store.getD (n / 2) 0 := by
      rw [List.getD_eq_getElem?_getD, List.getD_eq_getElem?_getD, List.getElem?_take,
        if_pos (by norm_num : (0 : ℕ) < 1), List.getElem?_drop, Nat.add_zero]
    simp only [getDigitsLoop]
    rw [hdata, Nat.add_zero]
    by_cases hpar : n % 2 = 0
    · rw [if_pos hpar, if_pos (show ((n : ℤ) % 2 = 0) by omega)]
      by_cases hle : store.getD (n / 2) 0 >>> 4 ≤ 9
      · rw [if_pos hle, if_pos hle]
        rfl
      · rw [if_neg hle, if_neg hle]
        rfl
    · rw [if_neg hpar, if_neg (show ¬((n : ℤ) % 2 = 0) by omega)]
      by_cases hle : store.getD (n / 2) 0 &&& 0x0F ≤ 9
      · rw [if_pos hle, if_pos hle]
        rfl
      · rw [if_neg hle, if_neg hle]
        rfl

end PiSearch
